import Mathlib

/-!
Verification of the billiards engine in `src/main.py`.

Python floats are modelled as exact rationals (`ℚ`).  The transcendental
primitives the source calls (`math.hypot`, `math.cos`/`math.sin` composed with
`math.radians`, and `math.degrees ∘ math.atan2`) are not rational-valued, so
they are kept as explicit function parameters (the `Oracle` structure below):
every definition is the source translated verbatim except that each call to
one of those four primitives goes through the corresponding parameter.
Theorems that genuinely depend on a property of the real primitive (for
example cos² + sin² = 1) state that property as a hypothesis.
-/

namespace Billiards

/-- `WIDTH` from `main.py` line 10. -/
def WIDTH : ℚ := 800

/-- `HEIGHT` from `main.py` line 10. -/
def HEIGHT : ℚ := 400

/-- `BALL_RADIUS` from `main.py` line 23. -/
def BALL_RADIUS : ℚ := 12

/-- `POCKET_RADIUS` from `main.py` line 24. -/
def POCKET_RADIUS : ℚ := 25

/-- `FRICTION` from `main.py` line 25. -/
def FRICTION : ℚ := 0.98

/-- `MAX_SHOTS` from `main.py` line 26. -/
def MAX_SHOTS : ℕ := 10

/-- The `Ball` class (`main.py` lines 31-39).  The color field is not part of
any game-logic decision (only `is_cue` / `is_black` are branched on), so it is
omitted; every other field is kept. -/
structure Ball where
  x : ℚ
  y : ℚ
  vx : ℚ
  vy : ℚ
  is_cue : Bool
  is_black : Bool
deriving DecidableEq

/-- `Ball.update` (`main.py` lines 41-63): move by velocity, apply friction,
then reflect off each wall independently (an `if`/`elif` per axis). -/
def Ball.update (b : Ball) : Ball :=
  let b1 := { b with x := b.x + b.vx, y := b.y + b.vy }
  let b2 := { b1 with vx := b1.vx * FRICTION, vy := b1.vy * FRICTION }
  let b3 :=
    if b2.x - BALL_RADIUS < 0 then { b2 with x := BALL_RADIUS, vx := -b2.vx }
    else if b2.x + BALL_RADIUS > WIDTH then { b2 with x := WIDTH - BALL_RADIUS, vx := -b2.vx }
    else b2
  if b3.y - BALL_RADIUS < 0 then { b3 with y := BALL_RADIUS, vy := -b3.vy }
  else if b3.y + BALL_RADIUS > HEIGHT then { b3 with y := HEIGHT - BALL_RADIUS, vy := -b3.vy }
  else b3

/-- `Ball.is_moving` (`main.py` lines 68-70): true iff some velocity component
has magnitude above `0.05`. -/
def Ball.is_moving (b : Ball) : Bool :=
  decide ((0.05 : ℚ) < |b.vx|) || decide ((0.05 : ℚ) < |b.vy|)

/-- Whether `Ball.update` would trigger a wall reflection on either axis this
tick (the conditions of lines 51-63 of `main.py`, evaluated on the post-move
position `x + vx`, `y + vy`). -/
def Ball.reflects (b : Ball) : Prop :=
  b.x + b.vx - BALL_RADIUS < 0 ∨ b.x + b.vx + BALL_RADIUS > WIDTH ∨
  b.y + b.vy - BALL_RADIUS < 0 ∨ b.y + b.vy + BALL_RADIUS > HEIGHT

instance (b : Ball) : Decidable b.reflects := by
  unfold Ball.reflects; infer_instance

/-- The guarded inter-ball distance of `main.py` lines 85-88: `math.hypot`
of the center offset, with `0.001` substituted when it is exactly `0`.
The hypotenuse primitive is the parameter `hyp`. -/
def eff_dist (hyp : ℚ → ℚ → ℚ) (b1 b2 : Ball) : ℚ :=
  let d := hyp (b2.x - b1.x) (b2.y - b1.y)
  if d = 0 then 0.001 else d

/-- The body of the pairwise loop of `handle_collisions` (`main.py`
lines 83-110): overlap push-apart plus equal-mass elastic exchange of the
normal velocity components. -/
def collide_pair (hyp : ℚ → ℚ → ℚ) (b1 b2 : Ball) : Ball × Ball :=
  let dx := b2.x - b1.x
  let dy := b2.y - b1.y
  let dist := eff_dist hyp b1 b2
  if dist < 2 * BALL_RADIUS then
    let overlap := 2 * BALL_RADIUS - dist
    let push_x := dx / dist * (overlap / 2)
    let push_y := dy / dist * (overlap / 2)
    let nx := dx / dist
    let ny := dy / dist
    let vn1 := b1.vx * nx + b1.vy * ny
    let vn2 := b2.vx * nx + b2.vy * ny
    ({ b1 with x := b1.x - push_x, y := b1.y - push_y,
               vx := b1.vx + (vn2 - vn1) * nx, vy := b1.vy + (vn2 - vn1) * ny },
     { b2 with x := b2.x + push_x, y := b2.y + push_y,
               vx := b2.vx + (vn1 - vn2) * nx, vy := b2.vy + (vn1 - vn2) * ny })
  else (b1, b2)

/-- The component of ball `c`'s velocity along the collision normal of the
pair `(b1, b2)` (the unit offset `(dx, dy) / dist` of `main.py`
lines 102-103). -/
def normalComp (hyp : ℚ → ℚ → ℚ) (b1 b2 c : Ball) : ℚ :=
  c.vx * ((b2.x - b1.x) / eff_dist hyp b1 b2) +
  c.vy * ((b2.y - b1.y) / eff_dist hyp b1 b2)

/-- The component of ball `c`'s velocity along the tangent of the collision
normal of the pair `(b1, b2)`. -/
def tangComp (hyp : ℚ → ℚ → ℚ) (b1 b2 c : Ball) : ℚ :=
  c.vx * (-((b2.y - b1.y) / eff_dist hyp b1 b2)) +
  c.vy * ((b2.x - b1.x) / eff_dist hyp b1 b2)

/-- One iteration of the nested loop of `handle_collisions`: read
`balls[i]` and `balls[j]`, collide them, write both back.  The bounds guard is
embedding boilerplate; the source always calls it with valid indices. -/
def applyPair (hyp : ℚ → ℚ → ℚ) (bs : List Ball) (i j : ℕ) : List Ball :=
  if h : i < bs.length ∧ j < bs.length then
    let pr := collide_pair hyp (bs.get ⟨i, h.1⟩) (bs.get ⟨j, h.2⟩)
    (bs.set i pr.1).set j pr.2
  else bs

/-- The index pairs visited by the nested loops of `handle_collisions`
(`main.py` lines 79-80): all `(i, j)` with `i < j < n`, in loop order. -/
def pairIdx (n : ℕ) : List (ℕ × ℕ) :=
  (List.range n).flatMap fun i =>
    ((List.range n).filter fun j => decide (i < j)).map fun j => (i, j)

/-- `handle_collisions` (`main.py` lines 75-110): fold the pairwise collision
update over every index pair, mutating the ball list in place. -/
def handle_collisions (hyp : ℚ → ℚ → ℚ) (bs : List Ball) : List Ball :=
  (pairIdx bs.length).foldl (fun acc p => applyPair hyp acc p.1 p.2) bs

/-- Python's float `%` with a positive divisor (`angle_deg %= 360` on
`main.py` line 170): floor-style remainder, result carries the divisor's
sign. -/
def pymod (a n : ℚ) : ℚ := a - n * (⌊a / n⌋ : ℚ)

/-- The outcome of the advisor round-trip as seen by the validation logic of
`call_llm` (`main.py` lines 141-181).  `error` is any raised exception caught
by the `try` block (transport failure, missing JSON fields, a matched group
that fails float conversion); `noMatch` is a reply in which the strict regex
of line 157 finds no JSON object; `parsed a p` is a reply whose regex match
converted to the two floats `a` and `p`. -/
inductive LLMOutcome where
  | error : LLMOutcome
  | noMatch : LLMOutcome
  | parsed : ℚ → ℚ → LLMOutcome
deriving DecidableEq

/-- The validation/fallback logic of `call_llm` (`main.py` lines 156-181),
with the transport/parse stages abstracted into `LLMOutcome`: normalize the
angle modulo 360, accept iff the normalized angle is in `[0, 360)` and the
power is in `[0, 15]`, otherwise return `(fallback_angle, 8.0)`. -/
def call_llm (outcome : LLMOutcome) (fallback_angle : ℚ) : ℚ × ℚ :=
  match outcome with
  | .error => (fallback_angle, 8.0)
  | .noMatch => (fallback_angle, 8.0)
  | .parsed angle_raw power_val =>
    let angle_deg := pymod angle_raw 360
    if (0 ≤ angle_deg ∧ angle_deg < 360) ∧ (0 ≤ power_val ∧ power_val ≤ 15) then
      (angle_deg, power_val)
    else (fallback_angle, 8.0)

/-- The four corner pockets (`main.py` lines 279-284). -/
def pockets4 : List (ℚ × ℚ) := [(0, 0), (WIDTH, 0), (0, HEIGHT), (WIDTH, HEIGHT)]

/-- `win_message` set when the black ball is potted (`main.py` line 314). -/
def winMsg : String := "Black ball potted! AI wins!"

/-- `win_message` for the shots-exhausted loss (`main.py` line 374). -/
def loseMsg : String := "No more shots. Black ball remains. AI loses!"

/-- `win_message` for the shots-exhausted cleared case (`main.py` line 376). -/
def clearMsg : String := "All balls cleared or black ball potted earlier."

/-- State of one ball while the pocket loop of `main.py` lines 307-324 runs
over the pockets: the (possibly foul-reset) ball, whether this ball was a
potted black ball (which sets `game_over`/`win_message`), and whether it was
appended to `removed_balls`. -/
structure PotState where
  ball : Ball
  black : Bool
  removed : Bool
deriving DecidableEq

/-- One iteration of the inner pocket loop (`main.py` lines 308-324): if the
current ball center is within `POCKET_RADIUS` of the pocket, branch on the
ball kind — black sets the win flag, cue is reset to `(WIDTH // 4,
HEIGHT // 2)` with zero velocity, anything else is marked removed.  The loop
does not break, so later pockets see the mutated ball. -/
def potStep (hyp : ℚ → ℚ → ℚ) (acc : PotState) (p : ℚ × ℚ) : PotState :=
  if hyp (p.1 - acc.ball.x) (p.2 - acc.ball.y) < POCKET_RADIUS then
    if acc.ball.is_black then { acc with black := true }
    else if acc.ball.is_cue then
      { acc with ball := { acc.ball with x := WIDTH / 4, y := HEIGHT / 2, vx := 0, vy := 0 } }
    else { acc with removed := true }
  else acc

/-- The full inner pocket loop for one ball. -/
def potBall (hyp : ℚ → ℚ → ℚ) (pockets : List (ℚ × ℚ)) (b : Ball) : PotState :=
  pockets.foldl (potStep hyp) ⟨b, false, false⟩

/-- A ball center lies within the capture radius of some pocket. -/
def inPocket (hyp : ℚ → ℚ → ℚ) (pockets : List (ℚ × ℚ)) (b : Ball) : Prop :=
  ∃ p ∈ pockets, hyp (p.1 - b.x) (p.2 - b.y) < POCKET_RADIUS

instance (hyp : ℚ → ℚ → ℚ) (pockets : List (ℚ × ℚ)) (b : Ball) :
    Decidable (inPocket hyp pockets b) := by
  unfold inPocket; infer_instance

/-- Result of the pocket-check phase of one tick. -/
structure PocketOut where
  balls : List Ball
  game_over : Bool
  win_message : Option String
deriving DecidableEq

/-- The pocket-check phase (`main.py` lines 306-328): run the pocket loop on
every ball, then drop the balls that were appended to `removed_balls`.  A
potted black ball sets `game_over` and overwrites `win_message` with the win
text; the loop itself never stops early. -/
def check_pockets (hyp : ℚ → ℚ → ℚ) (pockets : List (ℚ × ℚ)) (balls : List Ball)
    (go : Bool) (msg : Option String) : PocketOut :=
  let rs := balls.map (potBall hyp pockets)
  let blackPotted := rs.any fun r => r.black
  { balls := (rs.filter fun r => !r.removed).map fun r => r.ball,
    game_over := go || blackPotted,
    win_message := if blackPotted then some winMsg else msg }

/-- The transcendental primitives used by the engine, kept abstract because
they are not rational-valued: `hyp` is `math.hypot`, `cosd`/`sind` are
`math.cos`/`math.sin` composed with `math.radians` (argument in degrees), and
`atan2d` is `math.degrees ∘ math.atan2` (arguments `(dy, dx)`). -/
structure Oracle where
  hyp : ℚ → ℚ → ℚ
  cosd : ℚ → ℚ
  sind : ℚ → ℚ
  atan2d : ℚ → ℚ → ℚ

/-- The velocity the shot application gives the cue ball (`main.py`
lines 364-366): `(cos(radians(angle)) * power, sin(radians(angle)) * power)`. -/
def shotVel (O : Oracle) (angle power : ℚ) : ℚ × ℚ :=
  (O.cosd angle * power, O.sind angle * power)

/-- The closest-ball search of `main.py` lines 337-344: scan the list, skip
cue balls, keep the strictly closest ball seen so far (first wins ties). -/
def closestNonCue (hyp : ℚ → ℚ → ℚ) (cue : Ball) (balls : List Ball) : Option Ball :=
  (balls.foldl
    (fun acc b =>
      if b.is_cue then acc
      else
        let d := hyp (b.x - cue.x) (b.y - cue.y)
        match acc with
        | none => some (b, d)
        | some cd => if d < cd.2 then some (b, d) else acc)
    none).map Prod.fst

/-- The mutable session state of `main` (`main.py` lines 286-288): live ball
list, `shots_taken`, `game_over`, `win_message`. -/
structure GameState where
  balls : List Ball
  shots_taken : ℕ
  game_over : Bool
  win_message : Option String
deriving DecidableEq

/-- The physics + pocket phases of one tick (`main.py` lines 298-328). -/
def phase (O : Oracle) (s : GameState) : PocketOut :=
  check_pockets O.hyp pockets4 (handle_collisions O.hyp (s.balls.map Ball.update))
    s.game_over s.win_message

/-- The shot-request branch of `main.py` lines 332-366: increment the shot
counter, compute the fallback angle toward the closest non-cue ball (0 when
none exists), run the advisor through `call_llm`, and set the cue ball's
velocity.  The source applies the shot through the `cue_ball` alias, which is
the unique `is_cue` ball of the list; here the velocity is written to the
`is_cue` balls of the list (no ball if none exists, matching the alias having
no list effect). -/
def applyShotPhase (O : Oracle) (adv : ℕ → LLMOutcome) (po : PocketOut)
    (shots : ℕ) : GameState :=
  let shots1 := shots + 1
  let balls1 :=
    match po.balls.find? fun b => b.is_cue with
    | none => po.balls
    | some cue =>
      let fb :=
        match closestNonCue O.hyp cue po.balls with
        | some c => O.atan2d (c.y - cue.y) (c.x - cue.x)
        | none => 0
      let ap := call_llm (adv shots1) fb
      let v := shotVel O ap.1 ap.2
      po.balls.map fun b => if b.is_cue then { b with vx := v.1, vy := v.2 } else b
  { balls := balls1, shots_taken := shots1, game_over := po.game_over,
    win_message := po.win_message }

/-- One iteration of the main loop while the window stays open (`main.py`
lines 297-376), with the advisor reply stream abstracted as `adv` indexed by
the shot number: nothing happens once `game_over` is set; otherwise run
physics, collisions and pockets, and if every ball is at rest either request
a shot (budget left and game not over) or finalize the outcome. -/
def tick (O : Oracle) (adv : ℕ → LLMOutcome) (s : GameState) : GameState :=
  if s.game_over then s
  else
    let po := phase O s
    if po.balls.all fun b => !b.is_moving then
      if decide (s.shots_taken < MAX_SHOTS) && !po.game_over then
        applyShotPhase O adv po s.shots_taken
      else if !po.game_over then
        { balls := po.balls, shots_taken := s.shots_taken, game_over := true,
          win_message :=
            if po.win_message = none then
              some (if po.balls.any fun b => b.is_black then loseMsg else clearMsg)
            else po.win_message }
      else
        { balls := po.balls, shots_taken := s.shots_taken, game_over := po.game_over,
          win_message := po.win_message }
    else
      { balls := po.balls, shots_taken := s.shots_taken, game_over := po.game_over,
        win_message := po.win_message }

/-- A computable stand-in for `math.hypot` used to instantiate theorems at
concrete configurations: it agrees with the Euclidean hypotenuse whenever one
argument is zero, and elsewhere returns the conservative overestimate
`|dx| + |dy|` (which, like the true hypotenuse, exceeds every capture or
contact threshold in the concrete configurations below). -/
def axisHypot (dx dy : ℚ) : ℚ :=
  if dx = 0 then |dy| else if dy = 0 then |dx| else |dx| + |dy|

/-- Hypotenuse stand-in that is constantly `0` (extreme degenerate input). -/
def zeroHyp : ℚ → ℚ → ℚ := fun _ _ => 0

/-- Hypotenuse stand-in that is constantly `5` (the exact Euclidean norm of
the offset `(3, 4)` used below). -/
def fiveHyp : ℚ → ℚ → ℚ := fun _ _ => 5

/-- Fixture: cue ball resting at the table middle-left. -/
def cueW : Ball := ⟨200, 200, 0, 0, true, false⟩

/-- Fixture: black ball resting away from every pocket. -/
def blackW : Ball := ⟨600, 200, 0, 0, false, true⟩

/-- Fixture oracle: `axisHypot` for distances and the Pythagorean pair
`cos = 1`, `sin = 0`. -/
def oracleW : Oracle :=
  { hyp := axisHypot, cosd := fun _ => 1, sind := fun _ => 0, atan2d := fun _ _ => 0 }

/-- Fixture advisor whose call always fails. -/
def advErr : ℕ → LLMOutcome := fun _ => .error

/-- Fixture session: both balls at rest, the shot budget exhausted. -/
def stateW : GameState := ⟨[cueW, blackW], 10, false, none⟩

/-- Fixture: black ball sitting exactly on the top-left pocket. -/
def blackCex : Ball := ⟨0, 0, 0, 0, false, true⟩

/-- Fixture: object ball sitting exactly on the top-right pocket. -/
def objCex : Ball := ⟨800, 0, 0, 0, false, false⟩

/-- Fixture: cue ball sitting on the top-left pocket with nonzero velocity. -/
def cueP : Ball := ⟨0, 0, 7, 9, true, false⟩

/-- Fixture: in-bounds ball about to cross the left wall. -/
def ballE : Ball := ⟨12, 200, -20, 3, false, false⟩

/-- Fixture: mid-table ball that reflects off no wall this tick. -/
def ballF : Ball := ⟨400, 200, 1, 1, false, false⟩

/-- Fixture: moving ball at the origin-side of the colliding pair. -/
def b1M : Ball := ⟨0, 0, 2, 1, false, false⟩

/-- Fixture: resting ball offset by `(3, 4)` from `b1M`. -/
def b2M : Ball := ⟨3, 4, 0, 0, false, false⟩

/-- On axis-aligned inputs `axisHypot` is exactly the Euclidean norm. -/
theorem axisHypot_sq (dx dy : ℚ) (h : dx = 0 ∨ dy = 0) :
    axisHypot dx dy ^ 2 = dx ^ 2 + dy ^ 2 := by
  unfold axisHypot
  rcases h with h | h <;> subst h
  · simp [sq_abs]
  · by_cases hdx : dx = 0 <;> simp [hdx, sq_abs]

/-- C1, counterexample: the advisor reply `{"angle_degrees": 400, "power": 5}`
is not replaced by the fallback `(fallback_angle, 8.0)` — with fallback angle
`123` the engine applies `(40, 5)`, because line 170 of `main.py` normalizes
`400` to `40` before the range check. -/
theorem call_llm_oor_cex :
    call_llm (.parsed 400 5) 123 = (40, 5) ∧
    call_llm (.parsed 400 5) 123 ≠ ((123 : ℚ), (8.0 : ℚ)) := by
  constructor <;> norm_num [call_llm, pymod, Prod.ext_iff]

/-- C1, amended: a transport error (or a reply with no parsable JSON) makes
`call_llm` return exactly `(fallback_angle, 8.0)`; the out-of-range reply
`{"angle_degrees": 400, "power": 5}` is instead accepted after normalization,
yielding `(40, 5)`. -/
theorem call_llm_fallback_amended (fb : ℚ) :
    call_llm .error fb = (fb, 8.0) ∧
    call_llm .noMatch fb = (fb, 8.0) ∧
    call_llm (.parsed 400 5) fb = (40, 5) := by
  refine ⟨rfl, rfl, ?_⟩
  norm_num [call_llm, pymod]

/-- C2: `call_llm` returns the parsed pair with the angle normalized modulo
360 exactly when the normalized angle is in `[0, 360)` and the power is in
`[0, 15]`; a rejected parse, a missing JSON match and a transport error all
return exactly `(fallback_angle, 8.0)`. -/
theorem call_llm_validation (a p fb : ℚ) :
    ((0 ≤ pymod a 360 ∧ pymod a 360 < 360) ∧ 0 ≤ p ∧ p ≤ 15 →
      call_llm (.parsed a p) fb = (pymod a 360, p)) ∧
    (¬ ((0 ≤ pymod a 360 ∧ pymod a 360 < 360) ∧ 0 ≤ p ∧ p ≤ 15) →
      call_llm (.parsed a p) fb = (fb, 8.0)) ∧
    call_llm .error fb = (fb, 8.0) ∧
    call_llm .noMatch fb = (fb, 8.0) := by
  refine ⟨fun h => ?_, fun h => ?_, rfl, rfl⟩ <;> simp [call_llm, h]

/-- Witness for C2 at the in-range reply `(30, 5)`. -/
theorem call_llm_validation_witness : call_llm (.parsed 30 5) 7 = (30, 5) := by
  have hm : pymod 30 360 = 30 := by norm_num [pymod]
  have h := (call_llm_validation 30 5 7).1
  rw [hm] at h
  exact h (by norm_num)

/-- C9: the guarded distance used by the collision normal is never zero, and
an exact center overlap (`hypot` returning `0`) is replaced by the epsilon
`0.001`; `collide_pair` is a total function, so no input can make it raise. -/
theorem collision_no_div_zero (hyp : ℚ → ℚ → ℚ) (b1 b2 : Ball) :
    eff_dist hyp b1 b2 ≠ 0 ∧
    (hyp (b2.x - b1.x) (b2.y - b1.y) = 0 → eff_dist hyp b1 b2 = 0.001) := by
  unfold eff_dist
  dsimp only
  constructor
  · split_ifs with h
    · norm_num
    · exact h
  · intro h
    simp [h]

/-- Witness for C9 at an exact center overlap. -/
theorem collision_no_div_zero_witness :
    eff_dist zeroHyp cueW cueW = 0.001 ∧ eff_dist zeroHyp cueW cueW ≠ 0 := by
  have h := collision_no_div_zero zeroHyp cueW cueW
  exact ⟨h.2 rfl, h.1⟩

/-- C10: the power returned by `call_llm` always lies in `[0, 15]` (the
fallback power is `8.0` and the accepted path checks the range), and the shot
velocity `(cos(angle) * power, sin(angle) * power)` therefore has squared
speed at most `15²` whenever the cosine/sine oracle is Pythagorean. -/
theorem shot_speed_bound (O : Oracle)
    (hpy : ∀ θ : ℚ, O.cosd θ ^ 2 + O.sind θ ^ 2 = 1)
    (outcome : LLMOutcome) (fb : ℚ) :
    (0 ≤ (call_llm outcome fb).2 ∧ (call_llm outcome fb).2 ≤ 15) ∧
    (shotVel O (call_llm outcome fb).1 (call_llm outcome fb).2).1 ^ 2 +
      (shotVel O (call_llm outcome fb).1 (call_llm outcome fb).2).2 ^ 2 ≤ 15 ^ 2 := by
  have hp : 0 ≤ (call_llm outcome fb).2 ∧ (call_llm outcome fb).2 ≤ 15 := by
    cases outcome with
    | error => norm_num [call_llm]
    | noMatch => norm_num [call_llm]
    | parsed a p =>
      simp only [call_llm]
      split_ifs with h
      · exact ⟨h.2.1, h.2.2⟩
      · norm_num
  refine ⟨hp, ?_⟩
  have h1 := hpy (call_llm outcome fb).1
  simp only [shotVel]
  calc (O.cosd (call_llm outcome fb).1 * (call_llm outcome fb).2) ^ 2 +
        (O.sind (call_llm outcome fb).1 * (call_llm outcome fb).2) ^ 2
      = (O.cosd (call_llm outcome fb).1 ^ 2 + O.sind (call_llm outcome fb).1 ^ 2) *
          (call_llm outcome fb).2 ^ 2 := by ring
    _ = (call_llm outcome fb).2 ^ 2 := by rw [h1, one_mul]
    _ ≤ 15 ^ 2 := by nlinarith [hp.1, hp.2]

/-- Witness for C10 at the failing-advisor outcome with fallback angle 3. -/
theorem shot_speed_bound_witness :
    (0 ≤ (call_llm .error 3).2 ∧ (call_llm .error 3).2 ≤ 15) ∧
    (shotVel oracleW (call_llm .error 3).1 (call_llm .error 3).2).1 ^ 2 +
      (shotVel oracleW (call_llm .error 3).1 (call_llm .error 3).2).2 ^ 2 ≤ 15 ^ 2 :=
  shot_speed_bound oracleW (fun θ => by norm_num [oracleW]) .error 3

/-- The `x` component of `Ball.update`, written as one conditional. -/
theorem update_x_eq (b : Ball) :
    (Ball.update b).x =
      if b.x + b.vx - BALL_RADIUS < 0 then BALL_RADIUS
      else if b.x + b.vx + BALL_RADIUS > WIDTH then WIDTH - BALL_RADIUS
      else b.x + b.vx := by
  unfold Ball.update
  dsimp only
  split_ifs <;> rfl

/-- The `vx` component of `Ball.update`, written as one conditional. -/
theorem update_vx_eq (b : Ball) :
    (Ball.update b).vx =
      if b.x + b.vx - BALL_RADIUS < 0 then -(b.vx * FRICTION)
      else if b.x + b.vx + BALL_RADIUS > WIDTH then -(b.vx * FRICTION)
      else b.vx * FRICTION := by
  unfold Ball.update
  dsimp only
  split_ifs <;> rfl

/-- The `y` component of `Ball.update`, written as one conditional. -/
theorem update_y_eq (b : Ball) :
    (Ball.update b).y =
      if b.y + b.vy - BALL_RADIUS < 0 then BALL_RADIUS
      else if b.y + b.vy + BALL_RADIUS > HEIGHT then HEIGHT - BALL_RADIUS
      else b.y + b.vy := by
  unfold Ball.update
  dsimp only
  split_ifs <;> rfl

/-- The `vy` component of `Ball.update`, written as one conditional. -/
theorem update_vy_eq (b : Ball) :
    (Ball.update b).vy =
      if b.y + b.vy - BALL_RADIUS < 0 then -(b.vy * FRICTION)
      else if b.y + b.vy + BALL_RADIUS > HEIGHT then -(b.vy * FRICTION)
      else b.vy * FRICTION := by
  unfold Ball.update
  dsimp only
  split_ifs <;> rfl

/-- `Ball.update` does not change the `is_cue` and `is_black` flags. -/
theorem update_flags (b : Ball) :
    (Ball.update b).is_cue = b.is_cue ∧ (Ball.update b).is_black = b.is_black := by
  unfold Ball.update
  dsimp only
  split_ifs <;> exact ⟨rfl, rfl⟩

/-- C5: after `Ball.update` the position always satisfies
`BALL_RADIUS ≤ x ≤ WIDTH − BALL_RADIUS` and
`BALL_RADIUS ≤ y ≤ HEIGHT − BALL_RADIUS`; a wall crossing clamps the crossed
coordinate to the boundary value and negates that axis's (post-friction)
velocity component, each axis independently. -/
theorem ball_update_bounds (b : Ball)
    (hx : BALL_RADIUS ≤ b.x ∧ b.x ≤ WIDTH - BALL_RADIUS)
    (hy : BALL_RADIUS ≤ b.y ∧ b.y ≤ HEIGHT - BALL_RADIUS) :
    (BALL_RADIUS ≤ (Ball.update b).x ∧ (Ball.update b).x ≤ WIDTH - BALL_RADIUS ∧
     BALL_RADIUS ≤ (Ball.update b).y ∧ (Ball.update b).y ≤ HEIGHT - BALL_RADIUS) ∧
    (b.x + b.vx - BALL_RADIUS < 0 →
      (Ball.update b).x = BALL_RADIUS ∧ (Ball.update b).vx = -(b.vx * FRICTION)) ∧
    (¬ (b.x + b.vx - BALL_RADIUS < 0) → b.x + b.vx + BALL_RADIUS > WIDTH →
      (Ball.update b).x = WIDTH - BALL_RADIUS ∧ (Ball.update b).vx = -(b.vx * FRICTION)) ∧
    (b.y + b.vy - BALL_RADIUS < 0 →
      (Ball.update b).y = BALL_RADIUS ∧ (Ball.update b).vy = -(b.vy * FRICTION)) ∧
    (¬ (b.y + b.vy - BALL_RADIUS < 0) → b.y + b.vy + BALL_RADIUS > HEIGHT →
      (Ball.update b).y = HEIGHT - BALL_RADIUS ∧ (Ball.update b).vy = -(b.vy * FRICTION)) := by
  obtain ⟨hx1, hx2⟩ := hx
  obtain ⟨hy1, hy2⟩ := hy
  simp only [update_x_eq, update_vx_eq, update_y_eq, update_vy_eq, BALL_RADIUS, WIDTH, HEIGHT,
    FRICTION] at hx1 hx2 hy1 hy2 ⊢
  split_ifs <;>
    refine ⟨⟨by linarith, by linarith, by linarith, by linarith⟩,
      fun h1 => ⟨by linarith, by linarith⟩,
      fun h1 h2 => ⟨by linarith, by linarith⟩,
      fun h1 => ⟨by linarith, by linarith⟩,
      fun h1 h2 => ⟨by linarith, by linarith⟩⟩

/-- Witness for C5 at a ball crossing the left wall. -/
theorem ball_update_bounds_witness :
    (BALL_RADIUS ≤ (Ball.update ballE).x ∧ (Ball.update ballE).x ≤ WIDTH - BALL_RADIUS ∧
     BALL_RADIUS ≤ (Ball.update ballE).y ∧ (Ball.update ballE).y ≤ HEIGHT - BALL_RADIUS) ∧
    (Ball.update ballE).x = BALL_RADIUS := by
  have h := ball_update_bounds ballE (by norm_num [ballE, BALL_RADIUS, WIDTH])
    (by norm_num [ballE, BALL_RADIUS, HEIGHT])
  exact ⟨h.1, (h.2.1 (by norm_num [ballE, BALL_RADIUS])).1⟩

/-- Without a wall reflection this tick, `Ball.update` scales both velocity
components by exactly `FRICTION`. -/
theorem update_no_reflect (b : Ball) (hr : ¬ b.reflects) :
    (Ball.update b).vx = b.vx * FRICTION ∧ (Ball.update b).vy = b.vy * FRICTION := by
  unfold Ball.reflects at hr
  push_neg at hr
  obtain ⟨h1, h2, h3, h4⟩ := hr
  rw [update_vx_eq, update_vy_eq]
  constructor <;> split_ifs <;> first | rfl | linarith

/-- Each tick multiplies the magnitude of `vx` by exactly `FRICTION`,
reflections included (a reflection only flips the sign). -/
theorem update_abs_vx (b : Ball) : |(Ball.update b).vx| = |b.vx| * FRICTION := by
  have hF : |FRICTION| = FRICTION := by norm_num [FRICTION]
  rw [update_vx_eq]
  split_ifs <;> first | rw [abs_neg, abs_mul, hF] | rw [abs_mul, hF]

/-- Each tick multiplies the magnitude of `vy` by exactly `FRICTION`. -/
theorem update_abs_vy (b : Ball) : |(Ball.update b).vy| = |b.vy| * FRICTION := by
  have hF : |FRICTION| = FRICTION := by norm_num [FRICTION]
  rw [update_vy_eq]
  split_ifs <;> first | rw [abs_neg, abs_mul, hF] | rw [abs_mul, hF]

/-- Iterated version of `update_abs_vx` / `update_abs_vy`. -/
theorem iter_abs_vel (b : Ball) (N : ℕ) :
    |(Ball.update^[N] b).vx| = |b.vx| * FRICTION ^ N ∧
    |(Ball.update^[N] b).vy| = |b.vy| * FRICTION ^ N := by
  induction N with
  | zero => simp
  | succ n ih =>
    rw [Function.iterate_succ_apply', update_abs_vx, update_abs_vy, ih.1, ih.2]
    constructor <;> ring

/-- C7: over `N` reflection-free ticks both velocity components scale by
`FRICTION ^ N` (so the squared speed scales by `(FRICTION ^ N)²`), and from
any initial velocity the ball reaches the `is_moving = false` rest state in
finitely many ticks. -/
theorem friction_decay (b : Ball) (N : ℕ)
    (h : ∀ k, k < N → ¬ (Ball.update^[k] b).reflects) :
    ((Ball.update^[N] b).vx = b.vx * FRICTION ^ N ∧
     (Ball.update^[N] b).vy = b.vy * FRICTION ^ N ∧
     (Ball.update^[N] b).vx ^ 2 + (Ball.update^[N] b).vy ^ 2 =
       (FRICTION ^ N) ^ 2 * (b.vx ^ 2 + b.vy ^ 2)) ∧
    ∀ c : Ball, ∃ M : ℕ, (Ball.update^[M] c).is_moving = false := by
  constructor
  · have main : ∀ n : ℕ, (∀ k, k < n → ¬ (Ball.update^[k] b).reflects) →
        (Ball.update^[n] b).vx = b.vx * FRICTION ^ n ∧
        (Ball.update^[n] b).vy = b.vy * FRICTION ^ n := by
      intro n
      induction n with
      | zero => intro _; simp
      | succ m ih =>
        intro hm
        obtain ⟨ih1, ih2⟩ := ih fun k hk => hm k (Nat.lt_succ_of_lt hk)
        have hv := update_no_reflect (Ball.update^[m] b) (hm m (Nat.lt_succ_self m))
        rw [Function.iterate_succ_apply', hv.1, hv.2, ih1, ih2]
        constructor <;> ring
    obtain ⟨h1, h2⟩ := main N h
    refine ⟨h1, h2, ?_⟩
    rw [h1, h2]
    ring
  · intro c
    have hS : (0 : ℚ) < |c.vx| + |c.vy| + 1 := by positivity
    obtain ⟨M, hM⟩ := exists_pow_lt_of_lt_one
      (show (0 : ℚ) < (1 / 20) / (|c.vx| + |c.vy| + 1) by positivity)
      (show FRICTION < 1 by norm_num [FRICTION])
    refine ⟨M, ?_⟩
    have hF : (0 : ℚ) ≤ FRICTION ^ M := pow_nonneg (by norm_num [FRICTION]) M
    obtain ⟨hvx, hvy⟩ := iter_abs_vel c M
    have hεS : (|c.vx| + |c.vy| + 1) * ((1 / 20) / (|c.vx| + |c.vy| + 1)) = 1 / 20 := by
      field_simp
      ring
    have hlt : (|c.vx| + |c.vy| + 1) * FRICTION ^ M < 1 / 20 := by
      calc (|c.vx| + |c.vy| + 1) * FRICTION ^ M
          < (|c.vx| + |c.vy| + 1) * ((1 / 20) / (|c.vx| + |c.vy| + 1)) :=
            mul_lt_mul_of_pos_left hM hS
        _ = 1 / 20 := hεS
    have hx : |(Ball.update^[M] c).vx| ≤ 1 / 20 := by
      rw [hvx]
      have : |c.vx| * FRICTION ^ M ≤ (|c.vx| + |c.vy| + 1) * FRICTION ^ M :=
        mul_le_mul_of_nonneg_right (by linarith [abs_nonneg c.vx, abs_nonneg c.vy]) hF
      linarith
    have hy : |(Ball.update^[M] c).vy| ≤ 1 / 20 := by
      rw [hvy]
      have : |c.vy| * FRICTION ^ M ≤ (|c.vx| + |c.vy| + 1) * FRICTION ^ M :=
        mul_le_mul_of_nonneg_right (by linarith [abs_nonneg c.vx, abs_nonneg c.vy]) hF
      linarith
    simp only [Ball.is_moving, Bool.or_eq_false_iff, decide_eq_false_iff_not, not_lt]
    norm_num
    exact ⟨by linarith, by linarith⟩

/-- Witness for C7: one reflection-free tick of a mid-table ball. -/
theorem friction_decay_witness :
    (Ball.update^[1] ballF).vx = ballF.vx * FRICTION ^ 1 ∧
    (Ball.update^[1] ballF).vy = ballF.vy * FRICTION ^ 1 ∧
    (Ball.update^[1] ballF).vx ^ 2 + (Ball.update^[1] ballF).vy ^ 2 =
      (FRICTION ^ 1) ^ 2 * (ballF.vx ^ 2 + ballF.vy ^ 2) := by
  refine (friction_decay ballF 1 ?_).1
  intro k hk
  interval_cases k
  norm_num [Ball.reflects, ballF, BALL_RADIUS, WIDTH, HEIGHT]

/-- Two balls agreeing on every field are equal. -/
theorem Ball.eq_of_fields {a b : Ball} (h1 : a.x = b.x) (h2 : a.y = b.y)
    (h3 : a.vx = b.vx) (h4 : a.vy = b.vy) (h5 : a.is_cue = b.is_cue)
    (h6 : a.is_black = b.is_black) : a = b := by
  cases a
  cases b
  simp_all

/-- The live-ball list produced by the pocket-check phase. -/
theorem check_pockets_balls (hyp : ℚ → ℚ → ℚ) (pk : List (ℚ × ℚ)) (balls : List Ball)
    (go : Bool) (msg : Option String) :
    (check_pockets hyp pk balls go msg).balls =
      ((balls.map (potBall hyp pk)).filter fun r => !r.removed).map fun r => r.ball := rfl

/-- The `game_over` flag produced by the pocket-check phase. -/
theorem check_pockets_go (hyp : ℚ → ℚ → ℚ) (pk : List (ℚ × ℚ)) (balls : List Ball)
    (go : Bool) (msg : Option String) :
    (check_pockets hyp pk balls go msg).game_over =
      (go || (balls.map (potBall hyp pk)).any fun r => r.black) := rfl

/-- The message produced by the pocket-check phase. -/
theorem check_pockets_msg (hyp : ℚ → ℚ → ℚ) (pk : List (ℚ × ℚ)) (balls : List Ball)
    (go : Bool) (msg : Option String) :
    (check_pockets hyp pk balls go msg).win_message =
      (if ((balls.map (potBall hyp pk)).any fun r => r.black) = true then some winMsg
       else msg) := rfl

/-- `potStep` never changes the kind flags of the carried ball. -/
theorem potStep_flags (hyp : ℚ → ℚ → ℚ) (acc : PotState) (p : ℚ × ℚ) :
    (potStep hyp acc p).ball.is_cue = acc.ball.is_cue ∧
    (potStep hyp acc p).ball.is_black = acc.ball.is_black := by
  unfold potStep
  split_ifs <;> simp

/-- For a cue-flagged ball `potStep` leaves the removal flag alone. -/
theorem potStep_removed_cue (hyp : ℚ → ℚ → ℚ) (acc : PotState) (p : ℚ × ℚ)
    (hc : acc.ball.is_cue = true) :
    (potStep hyp acc p).removed = acc.removed := by
  unfold potStep
  split_ifs <;> simp_all

/-- Over any pocket list, a cue ball keeps its flags and is never marked
removed. -/
theorem foldl_potStep_cue (hyp : ℚ → ℚ → ℚ) (ps : List (ℚ × ℚ)) :
    ∀ acc : PotState, acc.ball.is_cue = true →
      (ps.foldl (potStep hyp) acc).removed = acc.removed ∧
      (ps.foldl (potStep hyp) acc).ball.is_cue = acc.ball.is_cue := by
  induction ps with
  | nil => exact fun acc _ => ⟨rfl, rfl⟩
  | cons p ps ih =>
    intro acc h
    have hf := potStep_flags hyp acc p
    have hr := potStep_removed_cue hyp acc p h
    have hih := ih (potStep hyp acc p) (hf.1.trans h)
    simp only [List.foldl_cons]
    exact ⟨hih.1.trans hr, hih.2.trans hf.1⟩

/-- Over any pocket list the carried ball keeps its kind flags. -/
theorem foldl_potStep_flags (hyp : ℚ → ℚ → ℚ) (ps : List (ℚ × ℚ)) :
    ∀ acc : PotState,
      (ps.foldl (potStep hyp) acc).ball.is_cue = acc.ball.is_cue ∧
      (ps.foldl (potStep hyp) acc).ball.is_black = acc.ball.is_black := by
  induction ps with
  | nil => exact fun acc => ⟨rfl, rfl⟩
  | cons p ps ih =>
    intro acc
    have hf := potStep_flags hyp acc p
    have hih := ih (potStep hyp acc p)
    simp only [List.foldl_cons]
    exact ⟨hih.1.trans hf.1, hih.2.trans hf.2⟩

/-- An object ball (neither black nor cue) is never mutated by the pocket
loop, and ends marked removed exactly when some pocket captures it. -/
theorem foldl_potStep_object (hyp : ℚ → ℚ → ℚ) (ps : List (ℚ × ℚ)) :
    ∀ acc : PotState, acc.ball.is_black = false → acc.ball.is_cue = false →
      (ps.foldl (potStep hyp) acc).ball = acc.ball ∧
      (ps.foldl (potStep hyp) acc).removed =
        (acc.removed ||
          ps.any fun p => decide (hyp (p.1 - acc.ball.x) (p.2 - acc.ball.y) < POCKET_RADIUS)) := by
  induction ps with
  | nil => intro acc _ _; simp
  | cons p ps ih =>
    intro acc hb hc
    by_cases ht : hyp (p.1 - acc.ball.x) (p.2 - acc.ball.y) < POCKET_RADIUS
    · have hstep : potStep hyp acc p = { acc with removed := true } := by
        unfold potStep
        rw [if_pos ht, if_neg (by simp [hb]), if_neg (by simp [hc])]
      have hih := ih { acc with removed := true } hb hc
      simp only [List.foldl_cons, hstep]
      refine ⟨hih.1, ?_⟩
      rw [hih.2]
      simp [List.any_cons, ht]
    · have hstep : potStep hyp acc p = acc := by
        unfold potStep
        rw [if_neg ht]
      have hih := ih acc hb hc
      simp only [List.foldl_cons, hstep]
      refine ⟨hih.1, ?_⟩
      rw [hih.2]
      simp [List.any_cons, ht]

/-- A black ball is never mutated by the pocket loop, and ends with the win
flag set exactly when some pocket captures it. -/
theorem foldl_potStep_black (hyp : ℚ → ℚ → ℚ) (ps : List (ℚ × ℚ)) :
    ∀ acc : PotState, acc.ball.is_black = true →
      (ps.foldl (potStep hyp) acc).ball = acc.ball ∧
      (ps.foldl (potStep hyp) acc).removed = acc.removed ∧
      (ps.foldl (potStep hyp) acc).black =
        (acc.black ||
          ps.any fun p => decide (hyp (p.1 - acc.ball.x) (p.2 - acc.ball.y) < POCKET_RADIUS)) := by
  induction ps with
  | nil => intro acc _; simp
  | cons p ps ih =>
    intro acc hb
    by_cases ht : hyp (p.1 - acc.ball.x) (p.2 - acc.ball.y) < POCKET_RADIUS
    · have hstep : potStep hyp acc p = { acc with black := true } := by
        unfold potStep
        rw [if_pos ht, if_pos hb]
      have hih := ih { acc with black := true } hb
      simp only [List.foldl_cons, hstep]
      refine ⟨hih.1, hih.2.1, ?_⟩
      rw [hih.2.2]
      simp [List.any_cons, ht]
    · have hstep : potStep hyp acc p = acc := by
        unfold potStep
        rw [if_neg ht]
      have hih := ih acc hb
      simp only [List.foldl_cons, hstep]
      refine ⟨hih.1, hih.2.1, ?_⟩
      rw [hih.2.2]
      simp [List.any_cons, ht]

/-- Once the cue ball sits at the reset position with zero velocity, the rest
of the pocket loop leaves it there (re-capture rewrites the same values). -/
theorem foldl_potStep_reset_absorb (hyp : ℚ → ℚ → ℚ) (ps : List (ℚ × ℚ)) :
    ∀ acc : PotState, acc.ball.is_cue = true → acc.ball.is_black = false →
      acc.ball.x = WIDTH / 4 → acc.ball.y = HEIGHT / 2 → acc.ball.vx = 0 → acc.ball.vy = 0 →
      (ps.foldl (potStep hyp) acc).ball = acc.ball := by
  induction ps with
  | nil => intro acc _ _ _ _ _ _; rfl
  | cons p ps ih =>
    intro acc hc hb hx hy hvx hvy
    by_cases ht : hyp (p.1 - acc.ball.x) (p.2 - acc.ball.y) < POCKET_RADIUS
    · have hball : ({ acc.ball with x := WIDTH / 4, y := HEIGHT / 2, vx := 0, vy := 0 } : Ball)
          = acc.ball :=
        Ball.eq_of_fields hx.symm hy.symm hvx.symm hvy.symm rfl rfl
      have hstep : potStep hyp acc p = acc := by
        unfold potStep
        rw [if_pos ht, if_neg (by simp [hb]), if_pos hc]
        rw [hball]
      simp only [List.foldl_cons, hstep]
      exact ih acc hc hb hx hy hvx hvy
    · have hstep : potStep hyp acc p = acc := by
        unfold potStep
        rw [if_neg ht]
      simp only [List.foldl_cons, hstep]
      exact ih acc hc hb hx hy hvx hvy

/-- A cue ball captured by some pocket of the list ends the pocket loop at
the reset position with zero velocity. -/
theorem foldl_potStep_cue_reset (hyp : ℚ → ℚ → ℚ) (ps : List (ℚ × ℚ)) :
    ∀ acc : PotState, acc.ball.is_cue = true → acc.ball.is_black = false →
      (∃ p ∈ ps, hyp (p.1 - acc.ball.x) (p.2 - acc.ball.y) < POCKET_RADIUS) →
      (ps.foldl (potStep hyp) acc).ball =
        { acc.ball with x := WIDTH / 4, y := HEIGHT / 2, vx := 0, vy := 0 } := by
  induction ps with
  | nil => intro acc _ _ hex; simp at hex
  | cons p ps ih =>
    intro acc hc hb hex
    by_cases ht : hyp (p.1 - acc.ball.x) (p.2 - acc.ball.y) < POCKET_RADIUS
    · have hstep : potStep hyp acc p =
          { acc with ball := { acc.ball with x := WIDTH / 4, y := HEIGHT / 2, vx := 0, vy := 0 } } := by
        unfold potStep
        rw [if_pos ht, if_neg (by simp [hb]), if_pos hc]
      simp only [List.foldl_cons, hstep]
      exact foldl_potStep_reset_absorb hyp ps _ hc hb rfl rfl rfl rfl
    · have hstep : potStep hyp acc p = acc := by
        unfold potStep
        rw [if_neg ht]
      simp only [List.foldl_cons, hstep]
      refine ih acc hc hb ?_
      rcases hex with ⟨q, hq, hqt⟩
      rcases List.mem_cons.mp hq with rfl | hq'
      · exact absurd hqt ht
      · exact ⟨q, hq', hqt⟩

/-- C3, counterexample: with the black ball on the top-left pocket and an
object ball on the top-right pocket, the same pocket check that pots the
black ball (setting `game_over`) still removes the object ball from the live
set — the loop does not stop once the black ball is potted. -/
theorem black_pot_short_circuit_cex :
    (check_pockets axisHypot pockets4 [blackCex, objCex] false none).game_over = true ∧
    objCex ∉ (check_pockets axisHypot pockets4 [blackCex, objCex] false none).balls := by
  norm_num [check_pockets, potBall, potStep, axisHypot, pockets4, POCKET_RADIUS, WIDTH, HEIGHT,
    blackCex, objCex]

/-- C3, amended: potting the black ball immediately sets `game_over` and the
win message, but the pocket check is not short-circuited — every other ball
of the tick is still checked, and captured object balls are still removed
from the live set. -/
theorem black_pot_sets_game_over (hyp : ℚ → ℚ → ℚ) (pockets : List (ℚ × ℚ))
    (balls : List Ball) (go : Bool) (msg : Option String)
    (hb : ∃ b ∈ balls, b.is_black = true ∧ inPocket hyp pockets b) :
    (check_pockets hyp pockets balls go msg).game_over = true ∧
    (check_pockets hyp pockets balls go msg).win_message = some winMsg ∧
    ∀ b ∈ balls, b.is_black = false → b.is_cue = false → inPocket hyp pockets b →
      (potBall hyp pockets b).removed = true ∧
      b ∉ (check_pockets hyp pockets balls go msg).balls := by
  obtain ⟨bb, hmem, hblack, hpocket⟩ := hb
  have hany : ((balls.map (potBall hyp pockets)).any fun r => r.black) = true := by
    rw [List.any_eq_true]
    refine ⟨potBall hyp pockets bb, List.mem_map_of_mem _ hmem, ?_⟩
    have h := (foldl_potStep_black hyp pockets ⟨bb, false, false⟩ hblack).2.2
    rw [potBall, h]
    simp only [Bool.false_or, List.any_eq_true]
    obtain ⟨p, hp, hpt⟩ := hpocket
    exact ⟨p, hp, by simpa using hpt⟩
  refine ⟨?_, ?_, ?_⟩
  · rw [check_pockets_go, hany]
    simp
  · rw [check_pockets_msg, hany]
    simp
  · intro c hc hcb hcc hcp
    have hobj := foldl_potStep_object hyp pockets ⟨c, false, false⟩ hcb hcc
    have hrem : (potBall hyp pockets c).removed = true := by
      have h2 : (potBall hyp pockets c).removed =
          (false || pockets.any fun p =>
            decide (hyp (p.1 - c.x) (p.2 - c.y) < POCKET_RADIUS)) := hobj.2
      rw [h2]
      simp only [Bool.false_or, List.any_eq_true]
      obtain ⟨p, hp, hpt⟩ := hcp
      exact ⟨p, hp, by simpa using hpt⟩
    refine ⟨hrem, ?_⟩
    intro habs
    rw [check_pockets_balls] at habs
    obtain ⟨r, hrf, hrball⟩ := List.mem_map.mp habs
    obtain ⟨hrm, hrrem⟩ := List.mem_filter.mp hrf
    obtain ⟨d, hd, rfl⟩ := List.mem_map.mp hrm
    have hdb : d.is_black = false := by
      have h2 : (potBall hyp pockets d).ball.is_black = d.is_black :=
        (foldl_potStep_flags hyp pockets ⟨d, false, false⟩).2
      rw [hrball, hcb] at h2
      exact h2.symm
    have hdc : d.is_cue = false := by
      have h2 : (potBall hyp pockets d).ball.is_cue = d.is_cue :=
        (foldl_potStep_flags hyp pockets ⟨d, false, false⟩).1
      rw [hrball, hcc] at h2
      exact h2.symm
    have hdobj := foldl_potStep_object hyp pockets ⟨d, false, false⟩ hdb hdc
    have hdc2 : d = c := by
      have h2 : (potBall hyp pockets d).ball = d := hdobj.1
      rw [hrball] at h2
      exact h2.symm
    have hfin : (!(potBall hyp pockets d).removed) = true := hrrem
    rw [hdc2, hrem] at hfin
    simp at hfin

/-- Witness for the amended C3 at the two-ball pocket configuration. -/
theorem black_pot_sets_game_over_witness :
    (check_pockets axisHypot pockets4 [blackCex, objCex] false none).game_over = true ∧
    (check_pockets axisHypot pockets4 [blackCex, objCex] false none).win_message = some winMsg ∧
    (potBall axisHypot pockets4 objCex).removed = true ∧
    objCex ∉ (check_pockets axisHypot pockets4 [blackCex, objCex] false none).balls := by
  have h := black_pot_sets_game_over axisHypot pockets4 [blackCex, objCex] false none
    ⟨blackCex, by norm_num, rfl,
      ⟨(0, 0), by norm_num [pockets4], by norm_num [axisHypot, blackCex, POCKET_RADIUS]⟩⟩
  have h3 := h.2.2 objCex (by norm_num) rfl rfl
    ⟨(WIDTH, 0), by norm_num [pockets4], by norm_num [axisHypot, objCex, WIDTH, POCKET_RADIUS]⟩
  exact ⟨h.1, h.2.1, h3.1, h3.2⟩

/-- Reading back the index just written by `List.set`. -/
theorem get_set_self (a : Ball) :
    ∀ (l : List Ball) (i : ℕ) (h : i < (l.set i a).length), (l.set i a).get ⟨i, h⟩ = a := by
  intro l
  induction l with
  | nil => intro i h; simp at h
  | cons hd tl ih =>
    intro i h
    cases i with
    | zero => rfl
    | succ n => exact ih n (by simpa using h)

/-- Reading any other index after `List.set`. -/
theorem get_set_ne (a : Ball) :
    ∀ (l : List Ball) (i j : ℕ), i ≠ j → ∀ (h1 : j < (l.set i a).length) (h2 : j < l.length),
      (l.set i a).get ⟨j, h1⟩ = l.get ⟨j, h2⟩ := by
  intro l
  induction l with
  | nil => intro i j _ _ h2; simp at h2
  | cons hd tl ih =>
    intro i j hij h1 h2
    cases i with
    | zero =>
      cases j with
      | zero => exact absurd rfl hij
      | succ n => rfl
    | succ m =>
      cases j with
      | zero => rfl
      | succ n => exact ih m n (fun he => hij (by rw [he])) _ (by simpa using h2)

/-- `List.set` with an element that agrees with the overwritten one on the
counted predicate leaves `countP` unchanged. -/
theorem countP_set_pred (p : Ball → Bool) :
    ∀ (l : List Ball) (i : ℕ) (a : Ball) (h : i < l.length),
      p a = p (l.get ⟨i, h⟩) → (l.set i a).countP p = l.countP p := by
  intro l
  induction l with
  | nil => intro i a h; simp at h
  | cons hd tl ih =>
    intro i a h hp
    cases i with
    | zero =>
      simp only [List.set, List.countP_cons]
      rw [hp]
      rfl
    | succ n =>
      simp only [List.set, List.countP_cons]
      rw [ih n a (by simpa using h) hp]

/-- `collide_pair` only changes positions and velocities, never the flags. -/
theorem collide_pair_flags (hyp : ℚ → ℚ → ℚ) (b1 b2 : Ball) :
    (collide_pair hyp b1 b2).1.is_cue = b1.is_cue ∧
    (collide_pair hyp b1 b2).1.is_black = b1.is_black ∧
    (collide_pair hyp b1 b2).2.is_cue = b2.is_cue ∧
    (collide_pair hyp b1 b2).2.is_black = b2.is_black := by
  unfold collide_pair
  dsimp only
  split_ifs <;> simp

/-- One pairwise collision step preserves the number of cue balls. -/
theorem applyPair_count_cue (hyp : ℚ → ℚ → ℚ) (bs : List Ball) (i j : ℕ) :
    ((applyPair hyp bs i j).countP fun b => b.is_cue) = bs.countP fun b => b.is_cue := by
  unfold applyPair
  split
  case isTrue h =>
    have hf := collide_pair_flags hyp (bs.get ⟨i, h.1⟩) (bs.get ⟨j, h.2⟩)
    have hlen : j < (bs.set i (collide_pair hyp (bs.get ⟨i, h.1⟩) (bs.get ⟨j, h.2⟩)).1).length := by
      simpa using h.2
    have hstep2 : ((bs.set i (collide_pair hyp (bs.get ⟨i, h.1⟩) (bs.get ⟨j, h.2⟩)).1).set j
          (collide_pair hyp (bs.get ⟨i, h.1⟩) (bs.get ⟨j, h.2⟩)).2).countP (fun b => b.is_cue) =
        ((bs.set i (collide_pair hyp (bs.get ⟨i, h.1⟩) (bs.get ⟨j, h.2⟩)).1).countP
          fun b => b.is_cue) := by
      apply countP_set_pred _ _ j _ hlen
      by_cases hij : i = j
      · subst hij
        rw [get_set_self]
        rw [hf.2.2.1, hf.1]
      · rw [get_set_ne _ _ _ _ hij _ h.2]
        exact hf.2.2.1
    rw [hstep2]
    exact countP_set_pred _ _ i _ h.1 hf.1
  case isFalse h => rfl

/-- `handle_collisions` preserves the number of cue balls. -/
theorem handle_collisions_count_cue (hyp : ℚ → ℚ → ℚ) (bs : List Ball) :
    ((handle_collisions hyp bs).countP fun b => b.is_cue) = bs.countP fun b => b.is_cue := by
  rw [handle_collisions]
  generalize pairIdx bs.length = ps
  induction ps generalizing bs with
  | nil => rfl
  | cons q qs ih =>
    simp only [List.foldl_cons]
    rw [ih, applyPair_count_cue]

/-- `Ball.update` preserves the number of cue balls. -/
theorem map_update_count_cue (bs : List Ball) :
    ((bs.map Ball.update).countP fun b => b.is_cue) = bs.countP fun b => b.is_cue := by
  rw [List.countP_map]
  apply List.countP_congr
  intro b _
  simp [Function.comp, (update_flags b).1]

/-- The pocket-check phase preserves the number of cue balls: the cue is
reset, never removed. -/
theorem check_pockets_count_cue (hyp : ℚ → ℚ → ℚ) (pk : List (ℚ × ℚ)) (balls : List Ball)
    (go : Bool) (msg : Option String) :
    ((check_pockets hyp pk balls go msg).balls.countP fun b => b.is_cue) =
      balls.countP fun b => b.is_cue := by
  rw [check_pockets_balls]
  induction balls with
  | nil => rfl
  | cons b bs ih =>
    simp only [List.map_cons, List.filter_cons]
    by_cases hrem : (potBall hyp pk b).removed
    · have hbc : b.is_cue = false := by
        by_contra hbc
        have := (foldl_potStep_cue hyp pk ⟨b, false, false⟩
          (by simpa using hbc)).1
        rw [potBall] at hrem
        rw [this] at hrem
        simp at hrem
      simp only [hrem, Bool.not_true, List.countP_cons, hbc]
      simpa using ih
    · have hflag : (potBall hyp pk b).ball.is_cue = b.is_cue :=
        (foldl_potStep_flags hyp pk ⟨b, false, false⟩).1
      simp only [Bool.not_eq_true] at hrem
      simp only [hrem, Bool.not_false, if_true, List.map_cons, List.countP_cons, hflag]
      rw [ih]

/-- The shot-application phase preserves the number of cue balls. -/
theorem applyShot_count_cue (O : Oracle) (adv : ℕ → LLMOutcome) (po : PocketOut) (shots : ℕ) :
    ((applyShotPhase O adv po shots).balls.countP fun b => b.is_cue) =
      po.balls.countP fun b => b.is_cue := by
  unfold applyShotPhase
  dsimp only
  cases hfind : po.balls.find? fun b => b.is_cue with
  | none => rfl
  | some cue =>
    simp only [List.countP_map]
    apply List.countP_congr
    intro b _
    by_cases hb : b.is_cue <;> simp [hb]

/-- One full tick preserves the number of cue balls. -/
theorem tick_count_cue (O : Oracle) (adv : ℕ → LLMOutcome) (s : GameState) :
    ((tick O adv s).balls.countP fun b => b.is_cue) = s.balls.countP fun b => b.is_cue := by
  have hphase : ((phase O s).balls.countP fun b => b.is_cue) =
      s.balls.countP fun b => b.is_cue := by
    rw [phase, check_pockets_count_cue, handle_collisions_count_cue, map_update_count_cue]
  unfold tick
  dsimp only
  split_ifs <;>
    first
      | rfl
      | (rw [applyShot_count_cue]; exact hphase)
      | exact hphase

/-- C8: a cue ball (never black-flagged) captured by any pocket ends the
pocket loop reset to `(WIDTH / 4, HEIGHT / 2)` with zero velocity; the pocket
loop never marks a cue ball removed; and a full tick — physics, collisions,
pocket check and shot application — preserves the number of cue balls in the
live set. -/
theorem cue_pocket_reset (hyp : ℚ → ℚ → ℚ) (pockets : List (ℚ × ℚ)) (b : Ball)
    (hc : b.is_cue = true) :
    (potBall hyp pockets b).removed = false ∧
    (b.is_black = false → inPocket hyp pockets b →
      (potBall hyp pockets b).ball =
        { b with x := WIDTH / 4, y := HEIGHT / 2, vx := 0, vy := 0 }) ∧
    ∀ (O : Oracle) (adv : ℕ → LLMOutcome) (s : GameState),
      ((tick O adv s).balls.countP fun c => c.is_cue) =
        s.balls.countP fun c => c.is_cue := by
  refine ⟨(foldl_potStep_cue hyp pockets ⟨b, false, false⟩ hc).1, ?_,
    fun O adv s => tick_count_cue O adv s⟩
  intro hb hp
  exact foldl_potStep_cue_reset hyp pockets ⟨b, false, false⟩ hc hb hp

/-- Witness for C8: a cue ball sitting on the top-left pocket. -/
theorem cue_pocket_reset_witness :
    (potBall axisHypot pockets4 cueP).removed = false ∧
    (potBall axisHypot pockets4 cueP).ball =
      { cueP with x := WIDTH / 4, y := HEIGHT / 2, vx := 0, vy := 0 } ∧
    ((tick oracleW advErr stateW).balls.countP fun c => c.is_cue) =
      stateW.balls.countP fun c => c.is_cue := by
  have h := cue_pocket_reset axisHypot pockets4 cueP rfl
  exact ⟨h.1,
    h.2.1 rfl ⟨(0, 0), by norm_num [pockets4],
      by norm_num [axisHypot, cueP, POCKET_RADIUS]⟩,
    h.2.2 oracleW advErr stateW⟩

/-- Once `game_over` is set a tick changes nothing (`main.py` line 297). -/
theorem tick_fixed_of_game_over (O : Oracle) (adv : ℕ → LLMOutcome) (s : GameState)
    (h : s.game_over = true) : tick O adv s = s := by
  unfold tick
  rw [h]
  rfl

/-- One tick of the resting fixture: `Ball.update` moves nothing. -/
theorem updW : [cueW, blackW].map Ball.update = [cueW, blackW] := by
  norm_num [Ball.update, cueW, blackW, FRICTION, BALL_RADIUS, WIDTH, HEIGHT]

/-- The pair list for two balls. -/
theorem pairIdx2 : pairIdx 2 = [(0, 1)] := by
  norm_num [pairIdx, List.range_succ]

/-- The resting fixture balls are 400 apart, so they do not collide. -/
theorem cpairW : collide_pair axisHypot cueW blackW = (cueW, blackW) := by
  rw [collide_pair]
  norm_num [eff_dist, axisHypot, cueW, blackW, BALL_RADIUS]

/-- Collision resolution leaves the resting fixture unchanged. -/
theorem collW : handle_collisions axisHypot [cueW, blackW] = [cueW, blackW] := by
  rw [handle_collisions]
  norm_num [pairIdx2, applyPair, cpairW]

/-- Neither fixture ball is near a pocket. -/
theorem cpW : check_pockets axisHypot pockets4 [cueW, blackW] false none =
    ⟨[cueW, blackW], false, none⟩ := by
  norm_num [check_pockets, potBall, potStep, axisHypot, pockets4, POCKET_RADIUS, WIDTH, HEIGHT,
    cueW, blackW]

/-- The physics and pocket phases leave the exhausted-budget fixture at
rest with nothing potted. -/
theorem phaseW : phase oracleW stateW = ⟨[cueW, blackW], false, none⟩ := by
  rw [phase]
  show check_pockets axisHypot pockets4
    (handle_collisions axisHypot ([cueW, blackW].map Ball.update)) false none = _
  rw [updW, collW, cpW]

/-- C4: with the shot budget exhausted (`shots_taken = MAX_SHOTS`), no prior
game end, and a tick whose physics/pocket phases pot no black ball and leave
every ball at rest, the tick sets `game_over`, picks the lose message when
the black ball is still live (else the cleared message), requests no shot
(`shots_taken` stays at `MAX_SHOTS`), and every later tick leaves the state
fixed, so no further shot request is ever issued. -/
theorem shot_budget_termination (O : Oracle) (adv : ℕ → LLMOutcome) (s : GameState)
    (h0 : s.game_over = false) (h1 : s.shots_taken = MAX_SHOTS) (h2 : s.win_message = none)
    (h3 : (phase O s).game_over = false)
    (h4 : ((phase O s).balls.all fun b => !b.is_moving) = true) :
    (tick O adv s).game_over = true ∧
    (tick O adv s).win_message =
      some (if ((phase O s).balls.any fun b => b.is_black) = true then loseMsg
        else clearMsg) ∧
    (tick O adv s).shots_taken = MAX_SHOTS ∧
    ∀ k : ℕ, (tick O adv)^[k] (tick O adv s) = tick O adv s := by
  have hmsg : (phase O s).win_message = none := by
    rw [phase] at h3 ⊢
    rw [check_pockets_go] at h3
    rw [check_pockets_msg]
    rcases Bool.or_eq_false_iff.mp h3 with ⟨-, hbp⟩
    rw [hbp]
    simpa using h2
  have hgo : (tick O adv s).game_over = true := by
    simp [tick, h0, h1, h3, h4, hmsg, MAX_SHOTS]
  refine ⟨hgo, ?_, ?_, ?_⟩
  · simp [tick, h0, h1, h3, h4, hmsg, MAX_SHOTS]
  · simp [tick, h0, h1, h3, h4, hmsg, MAX_SHOTS]
  · intro k
    exact Function.iterate_fixed (tick_fixed_of_game_over O adv _ hgo) k

/-- Witness for C4 at the exhausted-budget resting fixture: the black ball is
still live, so the lose message is chosen. -/
theorem shot_budget_termination_witness :
    (tick oracleW advErr stateW).game_over = true ∧
    (tick oracleW advErr stateW).win_message = some loseMsg ∧
    (tick oracleW advErr stateW).shots_taken = MAX_SHOTS := by
  have h := shot_budget_termination oracleW advErr stateW rfl rfl rfl
    (by rw [phaseW]) (by rw [phaseW]; norm_num [Ball.is_moving, cueW, blackW])
  refine ⟨h.1, ?_, h.2.2.1⟩
  rw [h.2.1, phaseW]
  norm_num [cueW, blackW]

/-- One pairwise collision conserves the sum of each velocity component
(the impulses on the two balls are exactly opposite). -/
theorem collide_pair_sum (hyp : ℚ → ℚ → ℚ) (b1 b2 : Ball) :
    (collide_pair hyp b1 b2).1.vx + (collide_pair hyp b1 b2).2.vx = b1.vx + b2.vx ∧
    (collide_pair hyp b1 b2).1.vy + (collide_pair hyp b1 b2).2.vy = b1.vy + b2.vy := by
  unfold collide_pair
  dsimp only
  split_ifs <;> constructor <;> ring

/-- Effect of `List.set` on a mapped sum. -/
theorem sum_map_set (f : Ball → ℚ) :
    ∀ (l : List Ball) (i : ℕ) (a : Ball) (h : i < l.length),
      ((l.set i a).map f).sum = (l.map f).sum - f (l.get ⟨i, h⟩) + f a := by
  intro l
  induction l with
  | nil => intro i a h; simp at h
  | cons hd tl ih =>
    intro i a h
    cases i with
    | zero =>
      simp only [List.set, List.map_cons, List.sum_cons, List.get_eq_getElem,
        List.getElem_cons_zero]
      ring
    | succ n =>
      have hn : n < tl.length := by simpa using h
      simp only [List.set, List.map_cons, List.sum_cons, List.get_eq_getElem,
        List.getElem_cons_succ]
      rw [show ((tl.set n a).map f).sum = (tl.map f).sum - f (tl.get ⟨n, hn⟩) + f a
        from ih n a hn]
      simp only [List.get_eq_getElem]
      ring

/-- A single `applyPair` step on distinct indices conserves both velocity
sums. -/
theorem applyPair_sum (hyp : ℚ → ℚ → ℚ) (bs : List Ball) (i j : ℕ) (hij : i ≠ j) :
    ((applyPair hyp bs i j).map Ball.vx).sum = (bs.map Ball.vx).sum ∧
    ((applyPair hyp bs i j).map Ball.vy).sum = (bs.map Ball.vy).sum := by
  unfold applyPair
  split
  case isTrue h =>
    have hs := collide_pair_sum hyp (bs.get ⟨i, h.1⟩) (bs.get ⟨j, h.2⟩)
    have hj1 : j < (bs.set i (collide_pair hyp (bs.get ⟨i, h.1⟩) (bs.get ⟨j, h.2⟩)).1).length := by
      simpa using h.2
    have hget : (bs.set i (collide_pair hyp (bs.get ⟨i, h.1⟩) (bs.get ⟨j, h.2⟩)).1).get ⟨j, hj1⟩ =
        bs.get ⟨j, h.2⟩ :=
      get_set_ne _ _ _ _ hij _ h.2
    constructor
    · rw [sum_map_set Ball.vx _ j _ hj1, hget, sum_map_set Ball.vx bs i _ h.1]
      linarith [hs.1]
    · rw [sum_map_set Ball.vy _ j _ hj1, hget, sum_map_set Ball.vy bs i _ h.1]
      linarith [hs.2]
  case isFalse h => exact ⟨rfl, rfl⟩

/-- Every pair visited by the collision loop has two distinct indices. -/
theorem pairIdx_lt (n : ℕ) : ∀ q ∈ pairIdx n, q.1 < q.2 := by
  intro q hq
  unfold pairIdx at hq
  simp only [List.mem_flatMap, List.mem_map, List.mem_filter, List.mem_range] at hq
  obtain ⟨i, hi, j, ⟨hj, hlt⟩, rfl⟩ := hq
  simpa using hlt

/-- Folding `applyPair` over any list of distinct-index pairs conserves both
velocity sums. -/
theorem foldl_pairs_sum (hyp : ℚ → ℚ → ℚ) :
    ∀ ps : List (ℕ × ℕ), (∀ q ∈ ps, q.1 ≠ q.2) → ∀ bs : List Ball,
      ((ps.foldl (fun acc q => applyPair hyp acc q.1 q.2) bs).map Ball.vx).sum =
        (bs.map Ball.vx).sum ∧
      ((ps.foldl (fun acc q => applyPair hyp acc q.1 q.2) bs).map Ball.vy).sum =
        (bs.map Ball.vy).sum := by
  intro ps
  induction ps with
  | nil => intro _ bs; exact ⟨rfl, rfl⟩
  | cons q qs ih =>
    intro hne bs
    simp only [List.foldl_cons]
    have h1 := applyPair_sum hyp bs q.1 q.2 (hne q (List.mem_cons_self q qs))
    have h2 := ih (fun r hr => hne r (List.mem_cons_of_mem q hr)) (applyPair hyp bs q.1 q.2)
    exact ⟨h2.1.trans h1.1, h2.2.trans h1.2⟩

/-- C6: `handle_collisions` leaves the sums of all `vx` and all `vy`
unchanged; moreover, for a colliding pair whose `hypot` value is the true
Euclidean norm of the center offset, the pairwise response exchanges exactly
the normal velocity components of the two balls and leaves both tangential
components untouched. -/
theorem collision_momentum (hyp : ℚ → ℚ → ℚ) :
    (∀ bs : List Ball,
      ((handle_collisions hyp bs).map Ball.vx).sum = (bs.map Ball.vx).sum ∧
      ((handle_collisions hyp bs).map Ball.vy).sum = (bs.map Ball.vy).sum) ∧
    (∀ b1 b2 : Ball,
      hyp (b2.x - b1.x) (b2.y - b1.y) ≠ 0 →
      hyp (b2.x - b1.x) (b2.y - b1.y) ^ 2 = (b2.x - b1.x) ^ 2 + (b2.y - b1.y) ^ 2 →
      hyp (b2.x - b1.x) (b2.y - b1.y) < 2 * BALL_RADIUS →
      normalComp hyp b1 b2 (collide_pair hyp b1 b2).1 = normalComp hyp b1 b2 b2 ∧
      normalComp hyp b1 b2 (collide_pair hyp b1 b2).2 = normalComp hyp b1 b2 b1 ∧
      tangComp hyp b1 b2 (collide_pair hyp b1 b2).1 = tangComp hyp b1 b2 b1 ∧
      tangComp hyp b1 b2 (collide_pair hyp b1 b2).2 = tangComp hyp b1 b2 b2) := by
  constructor
  · intro bs
    rw [handle_collisions]
    exact foldl_pairs_sum hyp (pairIdx bs.length)
      (fun q hq => Nat.ne_of_lt (pairIdx_lt _ q hq)) bs
  · intro b1 b2 hne hsq hlt
    have hd : eff_dist hyp b1 b2 = hyp (b2.x - b1.x) (b2.y - b1.y) := by
      unfold eff_dist
      dsimp only
      rw [if_neg hne]
    have hlt2 : eff_dist hyp b1 b2 < 2 * BALL_RADIUS := by
      rw [hd]
      exact hlt
    have hK : ((b2.x - b1.x) / eff_dist hyp b1 b2) ^ 2 +
        ((b2.y - b1.y) / eff_dist hyp b1 b2) ^ 2 = 1 := by
      rw [hd]
      field_simp
      linarith [hsq]
    unfold normalComp tangComp collide_pair
    dsimp only
    rw [if_pos hlt2]
    dsimp only
    refine ⟨?_, ?_, ?_, ?_⟩
    · linear_combination
        ((b2.vx * ((b2.x - b1.x) / eff_dist hyp b1 b2) +
            b2.vy * ((b2.y - b1.y) / eff_dist hyp b1 b2)) -
          (b1.vx * ((b2.x - b1.x) / eff_dist hyp b1 b2) +
            b1.vy * ((b2.y - b1.y) / eff_dist hyp b1 b2))) * hK
    · linear_combination
        ((b1.vx * ((b2.x - b1.x) / eff_dist hyp b1 b2) +
            b1.vy * ((b2.y - b1.y) / eff_dist hyp b1 b2)) -
          (b2.vx * ((b2.x - b1.x) / eff_dist hyp b1 b2) +
            b2.vy * ((b2.y - b1.y) / eff_dist hyp b1 b2))) * hK
    · ring
    · ring

/-- Witness for C6: the pair at offset `(3, 4)` with true hypotenuse `5`. -/
theorem collision_momentum_witness :
    (((handle_collisions fiveHyp [b1M, b2M]).map Ball.vx).sum =
      ([b1M, b2M].map Ball.vx).sum) ∧
    normalComp fiveHyp b1M b2M (collide_pair fiveHyp b1M b2M).1 =
      normalComp fiveHyp b1M b2M b2M := by
  have h := collision_momentum fiveHyp
  exact ⟨(h.1 [b1M, b2M]).1,
    (h.2 b1M b2M (by norm_num [fiveHyp]) (by norm_num [fiveHyp, b1M, b2M])
      (by norm_num [fiveHyp, BALL_RADIUS])).1⟩

end Billiards
